import Mathlib

/-!
Verification of the check-in / reward-harvest engine.

Shallow embedding of the repository's Python sources:
  * src/checkin_qaq_al/checkin.py  — leading-zero-bit counting, PoW nonce search,
    and the per-account check-in flow (`CheckIn.execute`);
  * src/utils/get_cdk.py           — the rotating-wheel harvest loop
    (`get_runawaytime_cdk`) and the lucky-draw harvest loop (`get_b4u_cdk`);
  * src/checkin_qaq_al/main.py     — the multi-account orchestrator loop,
    `generate_checkin_hash`, and the digest-file write gate.

External collaborators (SHA-256 from hashlib, HTTP transport, the browser
session collaborator, the notifier) are modelled as opaque parameters or as
enumerated response values, exactly at the boundary where the Python code
consumes their results.  Wall-clock timing fields (elapsed seconds, H/s) are
not modelled: they are read from the system clock and carry no algorithmic
content.
-/

/-! ### count_leading_zero_bits (checkin.py, lines 25-37)

The Python inner loop is `while (b & 0x80) == 0 and count < 256: count += 1;
b <<= 1`.  On entry `count` can exceed 249 only when the loop body would run
zero times, and otherwise the loop runs at most `256 - count ≤ 256` times, so
a fuel of 257 makes the embedding total without changing its value. -/

def clzInner : Nat → Nat → Nat → Nat
  | 0, _, count => count
  | fuel + 1, b, count =>
    if (b &&& 0x80) == 0 && count < 256 then clzInner fuel (b <<< 1) (count + 1) else count

/-- The `for byte in hash_bytes` loop: each `0x00` byte adds 8; the first
non-zero byte runs the inner while-loop and then the scan stops (`break`). -/
def clzGo : List Nat → Nat → Nat
  | [], count => count
  | byte :: rest, count =>
    if byte == 0 then clzGo rest (count + 8) else clzInner 257 byte count

def count_leading_zero_bits (hash_bytes : List Nat) : Nat :=
  clzGo hash_bytes 0

/-- Modelled from the spec's words (§8): the position of the first set bit in
a byte, scanned MSB-first; 8 when no bit of the low byte is set.  Used to
state the claimed formula `leadingZeroBits = 8*k + j` against the code. -/
def clzJ (b : Nat) : Nat :=
  if b.testBit 7 then 0 else if b.testBit 6 then 1 else if b.testBit 5 then 2
  else if b.testBit 4 then 3 else if b.testBit 3 then 4 else if b.testBit 2 then 5
  else if b.testBit 1 then 6 else if b.testBit 0 then 7 else 8

set_option maxHeartbeats 2000000 in
set_option maxRecDepth 10000 in
theorem clzInner_eq_clzJ_fin :
    ∀ b : Fin 256, ∀ k : Fin 32, 0 < b.val →
      clzInner 257 b.val (8 * k.val) = 8 * k.val + clzJ b.val := by decide

theorem clzGo_replicate_zero_append (l : List Nat) :
    ∀ (k count : Nat), clzGo (List.replicate k 0 ++ l) count = clzGo l (count + 8 * k) := by
  intro k
  induction k with
  | zero => intro count; simp [clzGo]
  | succ k ih =>
    intro count
    have : List.replicate (k + 1) 0 ++ l = 0 :: (List.replicate k 0 ++ l) := by
      simp [List.replicate_succ]
    rw [this]
    show clzGo (List.replicate k 0 ++ l) (count + 8) = clzGo l (count + 8 * (k + 1))
    rw [ih (count + 8)]
    ring_nf

theorem clzGo_replicate_zero :
    ∀ (L count : Nat), clzGo (List.replicate L 0) count = count + 8 * L := by
  intro L
  induction L with
  | zero => intro count; simp [clzGo]
  | succ L ih =>
    intro count
    rw [List.replicate_succ]
    show clzGo (List.replicate L 0) (count + 8) = count + 8 * (L + 1)
    rw [ih (count + 8)]
    ring_nf

/-! ### calculate_nonce (checkin.py, lines 69-96)

The Python loop hashes `challenge + ":" + str(nonce)` for `nonce = 0, 1, 2, …`
and returns at the first nonce whose digest has at least `difficulty` leading
zero bits.  The hash function (hashlib's SHA-256 over the UTF-8 encoding) is
an external primitive, modelled as a parameter `h : String → List Nat`
producing the digest's byte sequence.  The unbounded `while True` search is
embedded with explicit fuel: `none` means the fuel ran out before a
satisfying nonce was reached.  The progress-printing branch (every 100000
attempts) only logs and is omitted; the timing fields of the returned dict
(`elapsed`, `hps`) are wall-clock readings and are not modelled. -/

structure SolveResult where
  nonce : Nat
  leading : Nat
  hash : List Nat
deriving DecidableEq

def powInput (challenge : String) (nonce : Nat) : String :=
  challenge ++ ":" ++ toString nonce

def calculate_nonce (h : String → List Nat) (challenge : String) (difficulty : Nat) :
    Nat → Nat → Option SolveResult
  | 0, _ => none
  | fuel + 1, nonce =>
    let leading := count_leading_zero_bits (h (powInput challenge nonce))
    if difficulty ≤ leading then
      some ⟨nonce, leading, h (powInput challenge nonce)⟩
    else
      calculate_nonce h challenge difficulty fuel (nonce + 1)

theorem calculate_nonce_aux (h : String → List Nat) (c : String) (d : Nat) :
    ∀ (fuel k : Nat) (r : SolveResult), calculate_nonce h c d fuel k = some r →
      k ≤ r.nonce ∧
      r.leading = count_leading_zero_bits (h (powInput c r.nonce)) ∧
      r.hash = h (powInput c r.nonce) ∧
      d ≤ r.leading ∧
      ∀ m, k ≤ m → m < r.nonce → count_leading_zero_bits (h (powInput c m)) < d := by
  intro fuel
  induction fuel with
  | zero => intro k r hr; simp [calculate_nonce] at hr
  | succ fuel ih =>
    intro k r hr
    by_cases hd : d ≤ count_leading_zero_bits (h (powInput c k))
    · rw [calculate_nonce, if_pos hd] at hr
      obtain rfl : (⟨k, count_leading_zero_bits (h (powInput c k)), h (powInput c k)⟩ :
          SolveResult) = r := Option.some.inj hr
      refine ⟨le_refl _, rfl, rfl, hd, ?_⟩
      intro m hm hm'
      change m < k at hm'
      omega
    · rw [calculate_nonce, if_neg hd] at hr
      obtain ⟨h1, h2, h3, h4, h5⟩ := ih (k + 1) r hr
      refine ⟨by omega, h2, h3, h4, ?_⟩
      intro m hm hm'
      rcases Nat.eq_or_lt_of_le hm with hm | hm
      · rw [← hm]; omega
      · exact h5 m hm hm'

/-- C1: for every hash function, challenge prefix and difficulty, whenever the
nonce search returns a result, its `leading` count is at least the difficulty,
the returned nonce is the smallest non-negative integer whose digest has at
least `difficulty` leading zero bits (nonces are tested in order 0, 1, 2, …),
and the result is uniquely determined by `(prefix, difficulty)` — any two
successful runs (with any fuel) return the same result. -/
theorem calculate_nonce_correct (h : String → List Nat) (c : String) (d fuel : Nat)
    (r : SolveResult) (hr : calculate_nonce h c d fuel 0 = some r) :
    d ≤ r.leading ∧
    d ≤ count_leading_zero_bits (h (powInput c r.nonce)) ∧
    (∀ m, m < r.nonce → count_leading_zero_bits (h (powInput c m)) < d) ∧
    (∀ fuel₂ r₂, calculate_nonce h c d fuel₂ 0 = some r₂ → r₂ = r) := by
  obtain ⟨-, hlead, hhash, hd, hmin⟩ := calculate_nonce_aux h c d fuel 0 r hr
  refine ⟨hd, by rw [← hlead]; exact hd, fun m hm => hmin m (Nat.zero_le m) hm, ?_⟩
  intro fuel₂ r₂ hr₂
  obtain ⟨-, hlead₂, hhash₂, hd₂, hmin₂⟩ := calculate_nonce_aux h c d fuel₂ 0 r₂ hr₂
  have hnonce : r₂.nonce = r.nonce := by
    rcases Nat.lt_trichotomy r₂.nonce r.nonce with hlt | heq | hgt
    · have := hmin r₂.nonce (Nat.zero_le _) hlt
      rw [← hlead₂] at this
      omega
    · exact heq
    · have := hmin₂ r.nonce (Nat.zero_le _) hgt
      rw [← hlead] at this
      omega
  rcases r with ⟨n, l, hs⟩
  rcases r₂ with ⟨n₂, l₂, hs₂⟩
  simp only at hnonce hlead hlead₂ hhash hhash₂
  subst hnonce
  simp [hlead, hlead₂, hhash, hhash₂]

/-- Witness for C1 at a concrete input: a hash function returning the single
byte 0 (eight leading zero bits), difficulty 4, fuel 1.  The solver returns
nonce 0 with `leading = 8 ≥ 4`. -/
theorem calculate_nonce_correct_witness :
    calculate_nonce (fun _ => [0]) "abc" 4 1 0 = some ⟨0, 8, [0]⟩ ∧
    (4 : Nat) ≤ (8 : Nat) :=
  ⟨by rfl, (calculate_nonce_correct (fun _ => [0]) "abc" 4 1 ⟨0, 8, [0]⟩ (by rfl)).1⟩

/-- Counterexample for C2 as stated: the inner while-loop's `count < 256`
guard caps the bit count, so a sequence of 32 zero bytes followed by the
byte 0x0F yields 256, not `8*32 + 4 = 260` as the claimed formula requires.
(The formula does hold for all inputs with at most 31 leading zero bytes —
in particular for every 32-byte SHA-256 digest.) -/
theorem count_leading_zero_bits_formula_cex :
    count_leading_zero_bits (List.replicate 32 0 ++ [15]) = 256 ∧
    8 * 32 + clzJ 15 = 260 ∧
    count_leading_zero_bits (List.replicate 32 0 ++ [15]) ≠ 8 * 32 + clzJ 15 := by
  refine ⟨by decide, by decide, by decide⟩

/-- C2 amended: for every byte sequence with `k ≤ 31` leading zero bytes
followed by a non-zero byte `b < 256` (this covers every 32-byte SHA-256
digest that is not all zeros), `count_leading_zero_bits` equals `8*k + j`
where `j` is the MSB-first position of the first set bit of `b`; and an
all-zero sequence of any length `L` gives `8*L`.  (For 32 or more leading
zero bytes the `count < 256` cap makes the code return `8*k` instead.) -/
theorem count_leading_zero_bits_formula :
    (∀ (k b : Nat) (rest : List Nat), k ≤ 31 → 0 < b → b < 256 →
        count_leading_zero_bits (List.replicate k 0 ++ b :: rest) = 8 * k + clzJ b) ∧
    (∀ L, count_leading_zero_bits (List.replicate L 0) = 8 * L) := by
  constructor
  · intro k b rest hk hb hb'
    unfold count_leading_zero_bits
    rw [clzGo_replicate_zero_append (b :: rest) k 0]
    have hbne : (b == 0) = false := by
      rw [beq_eq_false_iff_ne]
      omega
    rw [clzGo, hbne]
    simp only [Bool.false_eq_true, if_false, Nat.zero_add]
    exact clzInner_eq_clzJ_fin ⟨b, hb'⟩ ⟨k, by omega⟩ hb
  · intro L
    unfold count_leading_zero_bits
    rw [clzGo_replicate_zero L 0]
    omega

/-- Witness for C2 (amended) at the claim's own example: `[0x00, 0x0F]` has
one leading zero byte and the first set bit of 0x0F is at position 4, so the
count is `8*1 + 4 = 12`; and the all-zero sequence of length 3 gives 24. -/
theorem count_leading_zero_bits_formula_witness :
    count_leading_zero_bits (List.replicate 1 0 ++ 15 :: ([] : List Nat)) = 8 * 1 + clzJ 15 ∧
    count_leading_zero_bits (List.replicate 3 0) = 8 * 3 :=
  ⟨count_leading_zero_bits_formula.1 1 15 [] (by decide) (by decide) (by decide),
   count_leading_zero_bits_formula.2 3⟩

/-! ### CheckIn.execute (checkin.py, lines 99-279)

The per-account flow: `_get_cf_clearance` → `_build_session` → `_check_me` →
(already-signed short-circuit) → `benchmark_hps` → `_get_challenge` →
`calculate_nonce` → `_submit`.

Each helper wraps its HTTP call in `try/except` and converts transport
exceptions, unparseable responses and failed field guards into `None`; its
observable behaviour is therefore `Option data`.  An endpoint's behaviour in
one run is modelled by `Resp`: `.ok` a parsed payload (before the helper's own
field guard), `.bad` an unparseable / error / guard-rejected response, and
`.exn` a raised transport exception — `_check_me`, `_get_challenge` and
`_submit` map both `.bad` and `.exn` to `None`.

`benchmark_hps` measures wall-clock hashing throughput and always returns a
number; it has no failure path and its value only feeds the challenge-request
query string, so only the fact that it runs (`benchCalls`) is modelled, and
the solver invocation likewise (`solveCalls` — its input/output behaviour is
`calculate_nonce`, proved separately).  `CallLog` counts how many times each
collaborator/endpoint is invoked during `execute`. -/

structure TodaySignin where
  reward_final : Option String
  tier_name : Option String
deriving DecidableEq

structure MeData where
  hasUser : Bool
  signedInToday : Bool
  todaySignin : Option TodaySignin
deriving DecidableEq

structure ChallengeData where
  challenge : String
  challengeId : String
  difficulty : Nat
deriving DecidableEq

structure SubmitData where
  rewardFinal : String
  rewardBase : Option String
  multiplier : Option String
  tierName : Option String
  notes : Option String
deriving DecidableEq

inductive Resp (α : Type) where
  | ok (a : α)
  | bad
  | exn
deriving DecidableEq

/-- The session collaborator's result: `(cf_cookies, browser_headers)`, each
possibly absent.  `_get_cf_clearance` returns `(None, None)` when
`get_cf_clearance` raises; the cookie map is abstracted to whether a usable
value was returned. -/
structure Env where
  cf : Option Unit × Option Unit
  me : Resp MeData
  challenge : Resp ChallengeData
  submit : Resp SubmitData
deriving DecidableEq

inductive ExecResult where
  | alreadySigned (reward_final : String) (tier_name : String)
  | signed (reward_final reward_base multiplier tier_name notes : String)
  | error (msg : String)
deriving DecidableEq

structure CallLog where
  cfCalls : Nat
  meCalls : Nat
  benchCalls : Nat
  challengeCalls : Nat
  solveCalls : Nat
  submitCalls : Nat
deriving DecidableEq

/-- `_check_me` (lines 151-174): returns the parsed payload only when it is
truthy and contains a `"user"` key; any error/exception path returns `None`. -/
def check_me : Resp MeData → Option MeData
  | .ok d => if d.hasUser then some d else none
  | .bad => none
  | .exn => none

/-- `_get_challenge` (lines 176-193): `.ok` models a truthy payload containing
a `"challenge"` key; guard-rejected or failed responses are `.bad`. -/
def get_challenge : Resp ChallengeData → Option ChallengeData
  | .ok c => some c
  | .bad => none
  | .exn => none

/-- `_submit` (lines 195-217): `.ok` models a truthy payload containing a
`"rewardFinal"` key. -/
def submit_checkin : Resp SubmitData → Option SubmitData
  | .ok s => some s
  | .bad => none
  | .exn => none

/-- `today.get("reward_final", "0")` where `today = me_data.get("todaySignin", {})`. -/
def todayRewardFinal (d : MeData) : String :=
  match d.todaySignin with
  | some t => t.reward_final.getD "0"
  | none => "0"

def todayTierName (d : MeData) : String :=
  match d.todaySignin with
  | some t => t.tier_name.getD ""
  | none => ""

/-- `CheckIn.execute` (lines 219-279).  The returned pair mirrors the Python
`(success, result_dict)`; the `CallLog` records which steps ran.  The
session-collaborator result `env.cf` never gates the control flow: the code
only logs a warning when `cf_clearance` is absent and continues with
`_build_session` and `_check_me` regardless. -/
def execute (env : Env) : (Bool × ExecResult) × CallLog :=
  match check_me env.me with
  | some d =>
    if d.signedInToday then
      ((true, .alreadySigned (todayRewardFinal d) (todayTierName d)),
       ⟨1, 1, 0, 0, 0, 0⟩)
    else
      match get_challenge env.challenge with
      | none => ((false, .error "获取挑战失败"), ⟨1, 1, 1, 1, 0, 0⟩)
      | some _ =>
        match submit_checkin env.submit with
        | none => ((false, .error "提交签到失败"), ⟨1, 1, 1, 1, 1, 1⟩)
        | some s =>
          ((true, .signed s.rewardFinal (s.rewardBase.getD "0") (s.multiplier.getD "1")
              (s.tierName.getD "") (s.notes.getD "")),
           ⟨1, 1, 1, 1, 1, 1⟩)
  | none => ((false, .error "获取用户信息失败，可能 cf_clearance 无效"), ⟨1, 1, 0, 0, 0, 0⟩)

/-- A concrete run whose `/api/me` response is literally
`{signedInToday: true, todaySignin: {reward_final: "5"}}` — and nothing else;
in particular it has no `"user"` key. -/
def envNoUser : Env :=
  { cf := (some (), some ()),
    me := .ok { hasUser := false, signedInToday := true,
                todaySignin := some { reward_final := some "5", tier_name := none } },
    challenge := .bad, submit := .bad }

/-- Counterexample for C3 as stated: `_check_me` returns the payload only when
it contains a `"user"` key (`if data and "user" in data`), so for the claim's
literal status response (which has no `user` field) the flow does not
terminate in the already-signed state — it fails the account with the
user-info error, returning `success = False`. -/
theorem execute_already_signed_cex :
    envNoUser.me = .ok { hasUser := false, signedInToday := true,
                         todaySignin := some { reward_final := some "5", tier_name := none } } ∧
    (execute envNoUser).1.1 = false ∧
    (execute envNoUser).1.2 = .error "获取用户信息失败，可能 cf_clearance 无效" := by
  refine ⟨rfl, rfl, rfl⟩

/-- C3 amended: for every account whose status response contains a `user`
object and has `signedInToday: true` with `todaySignin.reward_final = "5"`,
the flow terminates successfully in the already-signed state echoing back the
reward `"5"`, with zero calls to the challenge-fetch and submit endpoints and
zero invocations of the hash-rate benchmark and the nonce solver. -/
theorem execute_already_signed (env : Env) (d : MeData) (t : TodaySignin)
    (hme : env.me = .ok d) (hu : d.hasUser = true) (hs : d.signedInToday = true)
    (ht : d.todaySignin = some t) (hr : t.reward_final = some "5") :
    (execute env).1 = (true, .alreadySigned "5" (t.tier_name.getD "")) ∧
    (execute env).2.challengeCalls = 0 ∧
    (execute env).2.submitCalls = 0 ∧
    (execute env).2.benchCalls = 0 ∧
    (execute env).2.solveCalls = 0 := by
  unfold execute check_me
  rw [hme]
  simp [hu, hs, todayRewardFinal, todayTierName, ht, hr]

/-- Witness for C3 (amended): a concrete already-signed run. -/
theorem execute_already_signed_witness :
    (execute { cf := (some (), some ()),
               me := .ok { hasUser := true, signedInToday := true,
                           todaySignin := some { reward_final := some "5",
                                                 tier_name := some "钻石" } },
               challenge := .bad, submit := .bad }).1
      = (true, .alreadySigned "5" "钻石") :=
  (execute_already_signed
    { cf := (some (), some ()),
      me := .ok { hasUser := true, signedInToday := true,
                  todaySignin := some { reward_final := some "5", tier_name := some "钻石" } },
      challenge := .bad, submit := .bad }
    { hasUser := true, signedInToday := true,
      todaySignin := some { reward_final := some "5", tier_name := some "钻石" } }
    { reward_final := some "5", tier_name := some "钻石" }
    rfl rfl rfl rfl rfl).1

/-- A concrete run where the session collaborator returns `(None, None)` and
the status endpoint then answers normally (account already signed in). -/
def envNullSession : Env :=
  { cf := (none, none),
    me := .ok { hasUser := true, signedInToday := true,
                todaySignin := some { reward_final := some "5", tier_name := none } },
    challenge := .bad, submit := .bad }

/-- Counterexample for C4 as stated: when the session collaborator returns
null cookies/headers, `execute` does NOT fail the account — it logs a warning,
builds a session without `cf_clearance`, and proceeds to the status step
(`meCalls = 1`); in this run the status call succeeds and the whole account
even returns `success = True`. -/
theorem execute_null_session_cex :
    envNullSession.cf = (none, none) ∧
    (execute envNullSession).2.meCalls = 1 ∧
    (execute envNullSession).1.1 = true := by
  refine ⟨rfl, rfl, rfl⟩

/-- C4 amended: when the session collaborator returns null cookies/headers,
session acquisition is not retried (exactly one collaborator call) and the
flow proceeds to the status check with the cookieless session; if the status
check then yields no usable data, the account fails with the user-info error
without reaching the challenge or submit steps. -/
theorem execute_null_session (env : Env) (_hcf : env.cf = (none, none))
    (hme : check_me env.me = none) :
    (execute env).1 = (false, .error "获取用户信息失败，可能 cf_clearance 无效") ∧
    (execute env).2.cfCalls = 1 ∧
    (execute env).2.meCalls = 1 ∧
    (execute env).2.challengeCalls = 0 ∧
    (execute env).2.submitCalls = 0 := by
  unfold execute
  rw [hme]
  exact ⟨rfl, rfl, rfl, rfl, rfl⟩

/-- Witness for C4 (amended): null session and an unparseable status response. -/
theorem execute_null_session_witness :
    (execute { cf := (none, none), me := .bad,
               challenge := .bad, submit := .bad }).1
      = (false, .error "获取用户信息失败，可能 cf_clearance 无效") :=
  (execute_null_session { cf := (none, none), me := .bad,
                          challenge := .bad, submit := .bad } rfl rfl).1

/-! ### Harvest loops (src/utils/get_cdk.py)

Both providers drive a "repeat action while quota > 0" loop over a shared
trace alphabet.  A run is recorded as a list of events: one `.callEv` per
POST to the draw endpoint (`perform`), one `.yieldEv code` per value the
generator yields with `(True, {"code": code})`, and one `.errEv msg` per
yielded `(False, {"error": msg})`.  Yields appear in the trace in the order
the Python generator suspends, so "each code is observable before the next
draw attempt" is visible as trace order. -/

inductive TrEv where
  | callEv
  | yieldEv (code : String)
  | errEv (msg : String)
deriving DecidableEq

/-- The codes a consumer of the generator obtains: yielded `code` values that
are non-empty (the module's own contract, get_cdk.py lines 6-8, designates an
empty `code` as "success, but nothing to redeem"). -/
def harvestCodes (tr : List TrEv) : List String :=
  tr.filterMap fun e =>
    match e with
    | .yieldEv c => if c = "" then none else some c
    | _ => none

/-- Number of `perform` (draw endpoint) calls in a trace. -/
def performCalls (tr : List TrEv) : Nat :=
  tr.countP fun e =>
    match e with
    | .callEv => true
    | _ => false

/-! #### Rotating wheel: get_runawaytime_cdk (get_cdk.py, lines 140-224)

One spin response (`POST /api/wheel`): either an HTTP status outside
`[200, 400]` (`.badStatus`, line 220-221), a body `response_resolve` could
not parse (`.noJson`, lines 192-194), or a parsed JSON payload carrying
`success`, `code`, an optional echoed `remaining`, and `message`
(`.ok`).  In the Python loop (lines 184-221) the only path that continues
iterating is `success` with a non-empty `code`: it yields the code and sets
`remaining = json_data.get("remaining", remaining - 1)` (line 199).  Every
other parsed payload `break`s — the "no more attempts" message match at
lines 209-216 only decides which line is printed before breaking, so it is
observationally irrelevant and not modelled. -/

inductive WheelResp where
  | ok (success : Bool) (code : String) (newRemaining : Option Int) (message : String)
  | badStatus
  | noJson
deriving DecidableEq

/-- The `while remaining > 0` spin loop.  `step n` is the server's response to
the (n+1)-st spin; `fuel` bounds the number of observed iterations (the
Python loop has no such bound); the returned Bool is `true` iff the loop
exited within `fuel` iterations. -/
def wheelRun (step : Nat → WheelResp) : Nat → Nat → Int → List TrEv × Bool
  | 0, _, remaining => ([], decide (remaining ≤ 0))
  | fuel + 1, idx, remaining =>
    if remaining ≤ 0 then ([], true)
    else
      match step idx with
      | .badStatus => ([.callEv], true)
      | .noJson => ([.callEv], true)
      | .ok success code newRem _msg =>
        if success && code != "" then
          let rest := wheelRun step fuel (idx + 1) (newRem.getD (remaining - 1))
          (.callEv :: .yieldEv code :: rest.1, rest.2)
        else ([.callEv], true)

/-- The wheel section of `get_runawaytime_cdk`: seed `remaining` from the
status check, spin only when `remaining > 0` (lines 158-169 and the `if
remaining > 0` guard at line 169). -/
def wheelHarvest (remaining0 : Int) (step : Nat → WheelResp) (fuel : Nat) :
    List TrEv × Bool :=
  if remaining0 > 0 then wheelRun step fuel 0 remaining0 else ([], true)

/-! #### Lucky draw: get_b4u_cdk (get_cdk.py, lines 722-842)

A draw response is HTTP non-200 (`.badStatus`, lines 836-839: yield an error
and stop) or a 200 body whose `"1:"`-prefixed lines carry the payloads.
`json.loads(json_str)` classifies a payload three ways:
  * a JSON object (`.json`: its `success`, `redemptionCode`, `message` keys,
    plus any other keys — `newRemaining` records a `remaining`-like key the
    server may echo, which this code never reads);
  * valid JSON that is **not** an object (`.jsonNonDict`) — note that a bare
    number such as `1:0` or `1:5` is valid JSON, so it lands here: the
    `isinstance(json_data, dict)` guard (line 796) fails, the body is
    skipped, and control reaches the bare `break` at line 831 with
    `remaining` unchanged;
  * a string `json.loads` raises on (`.undecodable`), taking the
    `except json.JSONDecodeError` handler at lines 821-830, whose
    `int(json_str)` re-parse (`intValue`) can only succeed for strings that
    `int` accepts but `json.loads` does not (e.g. `"+5"`, `"1_0"`) — an
    `intValue` of 0 zeroes `remaining` (line 827), anything else changes
    nothing — and then `continue`s to the next line.

The `for line in lines` loop (lines 791-835): a JSON object with `success`
decrements `remaining` by exactly 1 (lines 805, 814) — yielding the code
when non-empty — and breaks (line 831); a JSON object without `success`
yields an error, zeroes `remaining` and breaks (line 820); a non-object JSON
payload breaks with `remaining` unchanged (line 831); an undecodable payload
continues scanning; if no payload breaks, the `for`-`else` zeroes
`remaining` (lines 832-835). -/

inductive B4uPayload where
  | json (success : Bool) (redemptionCode : String) (newRemaining : Option Int) (message : String)
  | jsonNonDict
  | undecodable (intValue : Option Int)
deriving DecidableEq

inductive B4uResp where
  | ok (payloads : List B4uPayload)
  | badStatus (code : Nat)
deriving DecidableEq

/-- Processing of one 200-response's payload list: returns the yielded events
and the updated `remaining`.  Only `.undecodable` continues the scan; a
`.jsonNonDict` payload stops it leaving `remaining` untouched (the line-831
break after a skipped `isinstance` body). -/
def b4uProcess : List B4uPayload → Int → List TrEv × Int
  | [], _ => ([], 0)
  | p :: rest, remaining =>
    match p with
    | .json true code _ _ =>
      if code != "" then ([.yieldEv code], remaining - 1)
      else ([], remaining - 1)
    | .json false _ _ msg => ([.errEv ("Luckydraw failed - " ++ msg)], 0)
    | .jsonNonDict => ([], remaining)
    | .undecodable nval =>
      b4uProcess rest
        (match nval with
         | some n => if n == 0 then 0 else remaining
         | none => remaining)

/-- The `while remaining > 0` draw loop (lines 772-839). -/
def b4uLoop (step : Nat → B4uResp) : Nat → Nat → Int → List TrEv × Bool
  | 0, _, remaining => ([], decide (remaining ≤ 0))
  | fuel + 1, idx, remaining =>
    if remaining ≤ 0 then ([], true)
    else
      match step idx with
      | .badStatus c => ([.callEv, .errEv ("Luckydraw failed - HTTP " ++ toString c)], true)
      | .ok payloads =>
        let pr := b4uProcess payloads remaining
        let rest := b4uLoop step fuel (idx + 1) pr.2
        (.callEv :: pr.1 ++ rest.1, rest.2)

/-- The draw section of `get_b4u_cdk` after `remaining` has been seeded from
the status check: with no draws remaining it yields `(True, {"code": ""})`
and returns (lines 760-764); otherwise it runs the draw loop. -/
def b4uHarvest (remaining0 : Int) (step : Nat → B4uResp) (fuel : Nat) :
    List TrEv × Bool :=
  if remaining0 ≤ 0 then ([.yieldEv ""], true) else b4uLoop step fuel 0 remaining0

/-! #### The spec's HarvestLoop, for comparison -/

inductive HarvestOutcome where
  | awarded (code : String) (newRemaining : Option Int)
  | exhausted
  | transientFailure (msg : String)
deriving DecidableEq

/-- Modelled from the spec's words (§4.4 HarvestLoop), for comparison with the
two code loops: seed `remaining`; while `remaining > 0`, `perform()`; on
`Awarded` yield the code and set `remaining` to the echoed `newRemaining` when
present, else decrement by 1; stop on `Exhausted`/`TransientFailure`.  Returns
the yielded codes and the number of `perform` calls; the outcome list is the
server's successive answers. -/
def harvestLoopSpec : List HarvestOutcome → Int → List String × Nat
  | [], _ => ([], 0)
  | o :: rest, remaining =>
    if remaining ≤ 0 then ([], 0)
    else
      match o with
      | .awarded code newRem =>
        let r := harvestLoopSpec rest (newRem.getD (remaining - 1))
        (code :: r.1, r.2 + 1)
      | .exhausted => ([], 1)
      | .transientFailure _ => ([], 1)

/-- The claim's concrete scenario for the wheel: first spin awards "A" (no
echo), second awards "B" echoing `remaining = 0`. -/
def stepWheelAB : Nat → WheelResp
  | 0 => .ok true "A" none ""
  | 1 => .ok true "B" (some 0) ""
  | _ => .badStatus

/-- The claim's concrete scenario for the lucky draw. -/
def stepB4uAB : Nat → B4uResp
  | 0 => .ok [.json true "A" none ""]
  | 1 => .ok [.json true "B" (some 0) ""]
  | _ => .badStatus 500

/-- A lucky-draw server whose first response awards "A" and echoes
`remaining = 5`. -/
def stepB4uEcho : Nat → B4uResp
  | 0 => .ok [.json true "A" (some 5) ""]
  | _ => .ok [.json true "B" none ""]

/-- Counterexample for C5 as stated: the lucky-draw loop does not update
`remaining` from a server-echoed value — it always decrements by 1 (get_cdk.py
lines 805/814 read no `remaining` key).  Starting from `remaining = 1` with an
`Awarded{code:"A", newRemaining:5}` response, the code stops after one call
with codes `["A"]`, while the claimed update rule (the spec's HarvestLoop)
would continue and produce `["A", "B"]` in two calls. -/
theorem harvest_update_rule_cex :
    b4uHarvest 1 stepB4uEcho 10 = ([.callEv, .yieldEv "A"], true) ∧
    harvestCodes [.callEv, .yieldEv "A"] = ["A"] ∧
    performCalls [.callEv, .yieldEv "A"] = 1 ∧
    harvestLoopSpec [.awarded "A" (some 5), .awarded "B" (some 0)] 1 = (["A", "B"], 2) ∧
    (["A"] : List String) ≠ ["A", "B"] := by
  refine ⟨by decide, by decide, by decide, by decide, by decide⟩

/-- C5 amended: on each Awarded outcome the code is yielded before the next
perform call (visible in the trace order); the wheel updates `remaining` to
the server-echoed value when present and decrements by 1 otherwise, while the
lucky draw always decrements by 1, ignoring any echoed value.  In the
concrete scenario — `remaining` seeded to 2, then `Awarded{code:"A"}` and
`Awarded{code:"B", newRemaining:0}` — both loops produce exactly
`["A", "B"]` with exactly two perform calls. -/
theorem harvest_loop_behaviour :
    wheelHarvest 2 stepWheelAB 3 = ([.callEv, .yieldEv "A", .callEv, .yieldEv "B"], true) ∧
    b4uHarvest 2 stepB4uAB 3 = ([.callEv, .yieldEv "A", .callEv, .yieldEv "B"], true) ∧
    harvestCodes [.callEv, .yieldEv "A", .callEv, .yieldEv "B"] = ["A", "B"] ∧
    performCalls [.callEv, .yieldEv "A", .callEv, .yieldEv "B"] = 2 ∧
    (∀ (step : Nat → WheelResp) (fuel idx : Nat) (rem : Int) (code : String)
        (newRem : Option Int) (msg : String),
      0 < rem → step idx = .ok true code newRem msg → code ≠ "" →
      wheelRun step (fuel + 1) idx rem =
        (.callEv :: .yieldEv code :: (wheelRun step fuel (idx + 1) (newRem.getD (rem - 1))).1,
         (wheelRun step fuel (idx + 1) (newRem.getD (rem - 1))).2)) ∧
    (∀ (step : Nat → B4uResp) (fuel idx : Nat) (rem : Int) (code : String)
        (newRem : Option Int) (msg : String),
      0 < rem → step idx = .ok [.json true code newRem msg] → code ≠ "" →
      b4uLoop step (fuel + 1) idx rem =
        (.callEv :: .yieldEv code :: (b4uLoop step fuel (idx + 1) (rem - 1)).1,
         (b4uLoop step fuel (idx + 1) (rem - 1)).2)) := by
  refine ⟨by decide, by decide, by decide, by decide, ?_, ?_⟩
  · intro step fuel idx rem code newRem msg hrem hstep hcode
    rw [wheelRun, if_neg (by omega), hstep]
    simp only [Bool.true_and, bne_iff_ne, ne_eq, hcode, not_false_eq_true, if_true]
  · intro step fuel idx rem code newRem msg hrem hstep hcode
    rw [b4uLoop, if_neg (by omega), hstep]
    simp only [b4uProcess, bne_iff_ne, ne_eq, hcode, not_false_eq_true, if_true]
    rfl

/-- Witness for C5 (amended), exercising the lucky-draw decrement rule at a
concrete input: second draw of the A/B scenario. -/
theorem harvest_loop_behaviour_witness :
    0 < (1 : Int) ∧ b4uLoop stepB4uAB 1 1 1 = ([.callEv, .yieldEv "B"], true) :=
  ⟨by decide, by
    rw [harvest_loop_behaviour.2.2.2.2.2 stepB4uAB 0 1 1 "B" (some 0) ""
      (by decide) rfl (by decide)]
    decide⟩

/-- C6: when the seeding status check reports `remaining ≤ 0`, neither loop
ever calls the draw endpoint and neither produces any reward code.  The wheel
section yields nothing at all; the lucky draw yields the single
`(True, {"code": ""})` marker (get_cdk.py line 763) whose empty code is, by
the module's own contract, "nothing to redeem" — so its reward-code sequence
is also empty. -/
theorem harvest_zero_remaining (remaining0 : Int) (stepW : Nat → WheelResp)
    (stepB : Nat → B4uResp) (fuelW fuelB : Nat) (h0 : remaining0 ≤ 0) :
    wheelHarvest remaining0 stepW fuelW = ([], true) ∧
    b4uHarvest remaining0 stepB fuelB = ([.yieldEv ""], true) ∧
    harvestCodes (wheelHarvest remaining0 stepW fuelW).1 = [] ∧
    performCalls (wheelHarvest remaining0 stepW fuelW).1 = 0 ∧
    harvestCodes (b4uHarvest remaining0 stepB fuelB).1 = [] ∧
    performCalls (b4uHarvest remaining0 stepB fuelB).1 = 0 := by
  have hw : wheelHarvest remaining0 stepW fuelW = ([], true) := by
    rw [wheelHarvest, if_neg (by omega)]
  have hb : b4uHarvest remaining0 stepB fuelB = ([.yieldEv ""], true) := by
    rw [b4uHarvest, if_pos h0]
  refine ⟨hw, hb, ?_, ?_, ?_, ?_⟩
  · rw [hw]; decide
  · rw [hw]; decide
  · rw [hb]; decide
  · rw [hb]; decide

/-- Witness for C6: `remaining = 0` with concrete servers. -/
theorem harvest_zero_remaining_witness :
    (0 : Int) ≤ 0 ∧
    wheelHarvest 0 (fun _ => .badStatus) 5 = ([], true) ∧
    b4uHarvest 0 (fun _ => .badStatus 500) 5 = ([.yieldEv ""], true) :=
  ⟨by decide,
   (harvest_zero_remaining 0 (fun _ => .badStatus) (fun _ => .badStatus 500) 5 5 (by decide)).1,
   (harvest_zero_remaining 0 (fun _ => .badStatus) (fun _ => .badStatus 500) 5 5 (by decide)).2.1⟩

/-! #### Termination of the harvest loops -/

/-- A wheel server whose every spin succeeds with a code and echoes
`remaining = 1`. -/
def stepWheelForever : Nat → WheelResp := fun _ => .ok true "A" (some 1) ""

/-- The wheel loop exits within some finite number of iterations. -/
def wheelTerminates (step : Nat → WheelResp) (remaining0 : Int) : Prop :=
  ∃ fuel, (wheelHarvest remaining0 step fuel).2 = true

theorem wheelForever_stuck : ∀ (fuel idx : Nat),
    (wheelRun stepWheelForever fuel idx 1).2 = false := by
  intro fuel
  induction fuel with
  | zero => intro idx; rfl
  | succ fuel ih =>
    intro idx
    rw [wheelRun, if_neg (by omega)]
    exact ih (idx + 1)

/-- Counterexample for C7 as stated: the wheel loop trusts the server-echoed
`remaining` (get_cdk.py line 199), so a server answering every spin with
`Awarded{code:"A", newRemaining:1}` keeps `remaining` at 1 forever — the loop
performs infinitely many iterations even though each response is a successful
award, refuting "the harvest loop performs only finitely many iterations …
including when successful responses echo a newRemaining value that does not
decrease". -/
theorem harvest_termination_cex : ¬ wheelTerminates stepWheelForever 1 := by
  rintro ⟨fuel, hfuel⟩
  rw [wheelHarvest, if_pos (by omega), wheelForever_stuck fuel 0] at hfuel
  exact Bool.false_ne_true hfuel

/-- A lucky-draw server whose every 200-response carries the single payload
`1:5` — valid JSON, not an object. -/
def stepB4uNonDict : Nat → B4uResp := fun _ => .ok [.jsonNonDict]

theorem b4uNonDict_stuck : ∀ (fuel idx : Nat),
    (b4uLoop stepB4uNonDict fuel idx 1).2 = false := by
  intro fuel
  induction fuel with
  | zero => intro idx; rfl
  | succ fuel ih =>
    intro idx
    rw [b4uLoop, if_neg (by omega)]
    exact ih (idx + 1)

/-- The lucky-draw loop, too, can iterate forever: a server repeating a
bare-number `1:N` line (N ≠ 0) leaves `remaining` unchanged each round
(the line-831 break with a skipped `isinstance` body). -/
theorem b4uNonDict_no_fuel_suffices :
    ¬ ∃ fuel, (b4uHarvest 1 stepB4uNonDict fuel).2 = true := by
  rintro ⟨fuel, hfuel⟩
  rw [b4uHarvest, if_neg (by omega), b4uNonDict_stuck fuel 0] at hfuel
  exact Bool.false_ne_true hfuel

theorem b4uProcess_le : ∀ (p : List B4uPayload) (r : Int),
    B4uPayload.jsonNonDict ∉ p → (b4uProcess p r).2 ≤ max (r - 1) 0 := by
  intro p
  induction p with
  | nil => intro r _; simp [b4uProcess]
  | cons hd tl ih =>
    intro r hmem
    have hmem' : B4uPayload.jsonNonDict ∉ tl :=
      fun h => hmem (List.mem_cons_of_mem hd h)
    match hd with
    | .json true code nr msg =>
      rw [b4uProcess]
      split
      · show r - 1 ≤ max (r - 1) 0
        omega
      · show r - 1 ≤ max (r - 1) 0
        omega
    | .json false code nr msg =>
      show (0 : Int) ≤ max (r - 1) 0
      omega
    | .jsonNonDict =>
      exact absurd (List.mem_cons_self _ _) hmem
    | .undecodable (some n) =>
      rw [b4uProcess]
      split
      · have h0 := ih 0 hmem'
        omega
      · exact ih r hmem'
    | .undecodable none => exact ih r hmem'

theorem b4uLoop_term (step : Nat → B4uResp)
    (hB : ∀ i ps, step i = .ok ps → B4uPayload.jsonNonDict ∉ ps) :
    ∀ (n : Nat) (rem : Int) (idx : Nat),
    rem.toNat ≤ n → (b4uLoop step (n + 1) idx rem).2 = true := by
  intro n
  induction n with
  | zero =>
    intro rem idx hrem
    rw [b4uLoop, if_pos (by omega)]
  | succ n ih =>
    intro rem idx hrem
    by_cases h0 : rem ≤ 0
    · rw [b4uLoop, if_pos h0]
    · rw [b4uLoop, if_neg h0]
      match hs : step idx with
      | .badStatus c => rfl
      | .ok payloads =>
        simp only
        have hle := b4uProcess_le payloads rem (hB idx payloads hs)
        exact ih (b4uProcess payloads rem).2 (idx + 1) (by omega)

theorem wheelRun_term (step : Nat → WheelResp)
    (hW : ∀ i s c r m, step i = .ok s c r m → r = none) :
    ∀ (n : Nat) (rem : Int) (idx : Nat),
      rem.toNat ≤ n → (wheelRun step (n + 1) idx rem).2 = true := by
  intro n
  induction n with
  | zero =>
    intro rem idx hrem
    rw [wheelRun, if_pos (by omega)]
  | succ n ih =>
    intro rem idx hrem
    by_cases h0 : rem ≤ 0
    · rw [wheelRun, if_pos h0]
    · rw [wheelRun, if_neg h0]
      split
      · rfl
      · rfl
      next s c nr m heq =>
        have hnone : nr = none := hW idx s c nr m heq
        subst hnone
        split
        · exact ih (rem - 1) (idx + 1) (by omega)
        · rfl

/-- C7 amended: neither loop is unconditionally finite.  The wheel loop
terminates whenever no successful spin carries an echoed `remaining` (each
award then decrements by 1); as the counterexample shows, it need not
terminate when the server echoes a non-decreasing `remaining`.  The
lucky-draw loop terminates whenever no 200-response carries a valid-JSON
non-object payload (every scan then strictly decreases `remaining` or zeroes
it) — but a server repeating a bare-number `1:N` line with `N ≠ 0` leaves
`remaining` unchanged each round and spins forever (`b4uNonDict_stuck`).
Under these conditions `remaining.toNat + 1` rounds of fuel always suffice
for both loops. -/
theorem harvest_termination (stepB : Nat → B4uResp) (stepW : Nat → WheelResp)
    (rem : Int)
    (hW : ∀ i s c r m, stepW i = .ok s c r m → r = none)
    (hB : ∀ i ps, stepB i = .ok ps → B4uPayload.jsonNonDict ∉ ps) :
    (b4uHarvest rem stepB (rem.toNat + 1)).2 = true ∧
    (wheelHarvest rem stepW (rem.toNat + 1)).2 = true := by
  constructor
  · by_cases h0 : rem ≤ 0
    · rw [b4uHarvest, if_pos h0]
    · rw [b4uHarvest, if_neg h0]
      exact b4uLoop_term stepB hB rem.toNat rem 0 (le_refl _)
  · by_cases h0 : rem > 0
    · rw [wheelHarvest, if_pos h0]
      exact wheelRun_term stepW hW rem.toNat rem 0 (le_refl _)
    · rw [wheelHarvest, if_neg h0]

/-- Witness for C7 (amended): a lucky-draw server always answering with an
empty payload list and an echo-free wheel server, from `remaining = 2`. -/
theorem harvest_termination_witness :
    (b4uHarvest 2 (fun _ => .ok []) ((2 : Int).toNat + 1)).2 = true ∧
    (wheelHarvest 2 (fun _ => .ok true "A" none "") ((2 : Int).toNat + 1)).2 = true :=
  harvest_termination (fun _ => .ok []) (fun _ => .ok true "A" none "") 2
    (fun _ _ _ _ _ h => by injection h with h1 h2 h3 h4; exact h3.symm)
    (fun _ ps h => by injection h with h1; rw [← h1]; exact List.not_mem_nil _)

/-! ### main.py — orchestrator loop, result digest and write gate

`main()` (main.py, lines 67-183) iterates the configured sids in order,
wrapping each account's `CheckIn.execute` in `try/except`: a returned
`(False, result)` or a raised exception becomes that account's failure line
and the loop continues; a `(True, result)` increments `success_count` and
stores the result dict in `current_info[account_name]`.  One account's
outcome (returned pair, or exception) is an `AccountOutcome`; the loop is a
pure fold over the outcome list. -/

inductive AccountOutcome where
  | ret (success : Bool) (result : ExecResult)
  | exn (msg : String)
deriving DecidableEq

inductive AccountReport where
  | success (name : String) (result : ExecResult)
  | failure (name : String) (msg : String)
deriving DecidableEq

/-- `result.get("error", "未知错误") if result else "未知错误"` (main.py line 131). -/
def errMsg : ExecResult → String
  | .error m => m
  | _ => "未知错误"

def accountName (i : Nat) : String :=
  "account_" ++ toString (i + 1)

/-- The per-account loop of `main()` (lines 105-136): returns the per-account
reports in processing order, the `current_info` map in insertion order, and
`success_count`. -/
def mainLoop : Nat → List AccountOutcome → List AccountReport × List (String × ExecResult) × Nat
  | _, [] => ([], [], 0)
  | i, o :: rest =>
    let r := mainLoop (i + 1) rest
    match o with
    | .ret true res =>
      (.success (accountName i) res :: r.1, (accountName i, res) :: r.2.1, r.2.2 + 1)
    | .ret false res => (.failure (accountName i) (errMsg res) :: r.1, r.2.1, r.2.2)
    | .exn m => (.failure (accountName i) m :: r.1, r.2.1, r.2.2)

/-! #### generate_checkin_hash (main.py, lines 55-64)

`current_info` is a Python dict (account name → success-result dict): keys
are unique and iteration follows insertion order; it is modelled as an
association list carrying a key-nodup hypothesis where needed.  The guard
`if info:` skips only falsy values, and every stored result dict is
non-empty, so extraction is a plain map.  `info.get("reward_final", "0")`
reads the `reward_final` key of the stored dict (present in both success
shapes; `"0"` for a dict without it).

`json.dumps(rewards, sort_keys=True, separators=(",", ":"))` serializes with
keys sorted by Python's string order — lexicographic on Unicode code points,
embedded as `strLE` below — and no whitespace.  `json.dumps`'s string
escaping is modelled for the value domain that occurs here (quote and
backslash; account keys and reward values are plain text without control
characters).  `hashlib.sha256(...).hexdigest()` is the opaque parameter
`sha256hex`. -/

def rewardFinalOf : ExecResult → String
  | .alreadySigned rf _ => rf
  | .signed rf _ _ _ _ => rf
  | .error _ => "0"

/-- Code-point lexicographic order on character lists (Python's `<=` on
strings, as used by `sort_keys=True`). -/
def charListLE : List Char → List Char → Bool
  | [], _ => true
  | _ :: _, [] => false
  | a :: as, b :: bs =>
    if a.toNat < b.toNat then true
    else if b.toNat < a.toNat then false
    else charListLE as bs

def strLE (a b : String) : Bool :=
  charListLE a.toList b.toList

def sortedRewards (kvs : List (String × String)) : List (String × String) :=
  List.insertionSort (fun a b => strLE a.1 b.1 = true) kvs

def jsonEscapeChar (c : Char) : String :=
  if c = '"' then "\\\"" else if c = '\\' then "\\\\" else String.singleton c

def jsonStr (s : String) : String :=
  "\"" ++ String.join (s.toList.map jsonEscapeChar) ++ "\""

def serializeRewards (kvs : List (String × String)) : String :=
  "\x7b" ++ String.intercalate ","
    ((sortedRewards kvs).map fun kv => jsonStr kv.1 ++ ":" ++ jsonStr kv.2) ++ "\x7d"

def extractRewards (results : List (String × ExecResult)) : List (String × String) :=
  results.map fun kr => (kr.1, rewardFinalOf kr.2)

/-- Python's `hexdigest()[:16]` slices the first 16 characters. -/
def strTake (s : String) (n : Nat) : String :=
  String.mk (s.toList.take n)

def generate_checkin_hash (sha256hex : String → String)
    (results : List (String × ExecResult)) : String :=
  if results.isEmpty then ""
  else strTake (sha256hex (serializeRewards (extractRewards results))) 16

/-- `if current_hash: save_balance_hash(...)` (main.py, lines 180-181): the
digest file's content after the run, given its prior content. -/
def persistedAfterRun (sha256hex : String → String)
    (info : List (String × ExecResult)) (prev : Option String) : Option String :=
  if generate_checkin_hash sha256hex info != "" then
    some (generate_checkin_hash sha256hex info)
  else prev

theorem charToNat_inj {a b : Char} (h : a.toNat = b.toNat) : a = b :=
  Char.ext (UInt32.ext h)

theorem charListLE_total : ∀ (a b : List Char),
    charListLE a b = true ∨ charListLE b a = true := by
  intro a
  induction a with
  | nil => intro b; left; rfl
  | cons x xs ih =>
    intro b
    match b with
    | [] => right; rfl
    | y :: ys =>
      rw [charListLE, charListLE]
      by_cases h1 : x.toNat < y.toNat
      · left; rw [if_pos h1]
      · by_cases h2 : y.toNat < x.toNat
        · right; rw [if_pos h2]
        · rw [if_neg h1, if_neg h2, if_neg (by omega), if_neg (by omega)]
          exact ih ys

theorem charListLE_trans : ∀ (a b c : List Char),
    charListLE a b = true → charListLE b c = true → charListLE a c = true := by
  intro a
  induction a with
  | nil => intro b c _ _; rfl
  | cons x xs ih =>
    intro b c hab hbc
    match b, c with
    | [], _ => exact absurd hab (by simp [charListLE])
    | _ :: _, [] => exact absurd hbc (by simp [charListLE])
    | y :: ys, z :: zs =>
      rw [charListLE] at hab hbc ⊢
      by_cases hxy : x.toNat < y.toNat
      · by_cases hyz : y.toNat < z.toNat
        · rw [if_pos (by omega)]
        · rw [if_neg hyz] at hbc
          by_cases hzy : z.toNat < y.toNat
          · rw [if_pos hzy] at hbc
            exact absurd hbc (by simp)
          · rw [if_pos (by omega)]
      · rw [if_neg hxy] at hab
        by_cases hyx : y.toNat < x.toNat
        · rw [if_pos hyx] at hab
          exact absurd hab (by simp)
        · rw [if_neg hyx] at hab
          by_cases hyz : y.toNat < z.toNat
          · rw [if_pos (by omega)]
          · rw [if_neg hyz] at hbc
            by_cases hzy : z.toNat < y.toNat
            · rw [if_pos hzy] at hbc
              exact absurd hbc (by simp)
            · rw [if_neg hzy] at hbc
              rw [if_neg (by omega), if_neg (by omega)]
              exact ih ys zs hab hbc

theorem charListLE_antisymm : ∀ (a b : List Char),
    charListLE a b = true → charListLE b a = true → a = b := by
  intro a
  induction a with
  | nil =>
    intro b _ hba
    match b with
    | [] => rfl
    | _ :: _ => exact absurd hba (by simp [charListLE])
  | cons x xs ih =>
    intro b hab hba
    match b with
    | [] => exact absurd hab (by simp [charListLE])
    | y :: ys =>
      rw [charListLE] at hab hba
      by_cases hxy : x.toNat < y.toNat
      · rw [if_neg (by omega), if_pos hxy] at hba
        exact absurd hba (by simp)
      · by_cases hyx : y.toNat < x.toNat
        · rw [if_neg hxy, if_pos hyx] at hab
          exact absurd hab (by simp)
        · rw [if_neg hxy, if_neg hyx] at hab
          rw [if_neg hyx, if_neg hxy] at hba
          have hxy' : x = y := charToNat_inj (by omega)
          rw [hxy', ih ys hab hba]

theorem strLE_antisymm {a b : String} (hab : strLE a b = true) (hba : strLE b a = true) :
    a = b := by
  have h := charListLE_antisymm a.toList b.toList hab hba
  have h2 : a.data = b.data := h
  cases a
  cases b
  exact congrArg String.mk h2

/-- Two key-sorted association lists that are permutations of each other and
have pairwise-distinct keys are equal. -/
theorem sorted_perm_eq_of_nodup_keys :
    ∀ (l₁ l₂ : List (String × String)),
      l₁.Perm l₂ →
      l₁.Sorted (fun a b => strLE a.1 b.1 = true) →
      l₂.Sorted (fun a b => strLE a.1 b.1 = true) →
      (l₁.map Prod.fst).Nodup → l₁ = l₂ := by
  intro l₁
  induction l₁ with
  | nil =>
    intro l₂ hp _ _ _
    exact (hp.symm.eq_nil).symm
  | cons a t₁ ih =>
    intro l₂ hp hs₁ hs₂ hnd
    match l₂ with
    | [] => exact absurd hp.eq_nil (by simp)
    | b :: t₂ =>
      have hab : a = b := by
        have ha2 : a ∈ b :: t₂ := hp.subset (List.mem_cons_self a t₁)
        have hb1 : b ∈ a :: t₁ := hp.symm.subset (List.mem_cons_self b t₂)
        rcases List.mem_cons.mp ha2 with h | ha2'
        · exact h
        rcases List.mem_cons.mp hb1 with h | hb1'
        · exact h.symm
        have hba : strLE b.1 a.1 = true := List.rel_of_sorted_cons hs₂ a ha2'
        have hab' : strLE a.1 b.1 = true := List.rel_of_sorted_cons hs₁ b hb1'
        have hkey : a.1 = b.1 := strLE_antisymm hab' hba
        exfalso
        have : a.1 ∈ t₁.map Prod.fst := by
          rw [hkey]
          exact List.mem_map_of_mem Prod.fst hb1'
        rw [List.map_cons, List.nodup_cons] at hnd
        exact hnd.1 this
      subst hab
      have htl : t₁ = t₂ := by
        refine ih t₂ hp.cons_inv hs₁.of_cons hs₂.of_cons ?_
        rw [List.map_cons, List.nodup_cons] at hnd
        exact hnd.2
      rw [htl]

theorem strLE_isTotal : IsTotal (String × String) (fun a b => strLE a.1 b.1 = true) :=
  ⟨fun a b => charListLE_total a.1.toList b.1.toList⟩

theorem strLE_isTrans : IsTrans (String × String) (fun a b => strLE a.1 b.1 = true) :=
  ⟨fun a b c hab hbc => charListLE_trans a.1.toList b.1.toList c.1.toList hab hbc⟩

theorem extractRewards_keys (r : List (String × ExecResult)) :
    (extractRewards r).map Prod.fst = r.map Prod.fst := by
  unfold extractRewards
  rw [List.map_map]
  rfl


/-- C8: the result digest is a deterministic pure function of the results
map: it depends only on the `reward_final` value extracted per account,
serialized with keys sorted in code-point order and no whitespace, then
hashed and truncated to 16 characters (the second conjunct: any two maps with
the same emptiness and the same sorted extracted reward mapping digest
identically — in particular two applications to the same map agree); and it
is invariant under permuting the insertion order of the map's entries
(account keys are unique — `results` is a Python dict keyed by account name).
With the real `hashlib.sha256(...).hexdigest()` (always 64 characters), the
digest of a non-empty map is exactly 16 characters long. -/
theorem generate_checkin_hash_digest (sha256hex : String → String)
    (r₁ r₂ : List (String × ExecResult))
    (hnd : (r₁.map Prod.fst).Nodup) (hperm : r₁.Perm r₂) :
    generate_checkin_hash sha256hex r₁ = generate_checkin_hash sha256hex r₂ ∧
    (∀ r₃ : List (String × ExecResult), r₁.isEmpty = r₃.isEmpty →
      sortedRewards (extractRewards r₁) = sortedRewards (extractRewards r₃) →
      generate_checkin_hash sha256hex r₁ = generate_checkin_hash sha256hex r₃) ∧
    ((∀ s, (sha256hex s).length = 64) → r₁.isEmpty = false →
      (generate_checkin_hash sha256hex r₁).length = 16) := by
  haveI := strLE_isTotal
  haveI := strLE_isTrans
  refine ⟨?_, ?_, ?_⟩
  · by_cases hemp : r₁.isEmpty = true
    · have h1 : r₁ = [] := List.isEmpty_iff.mp hemp
      subst h1
      have h2 : r₂ = [] := (hperm.symm).eq_nil
      rw [h2]
    · have h2 : ¬(r₂.isEmpty = true) := by
        intro hc
        have := List.isEmpty_iff.mp hc
        subst this
        exact hemp (List.isEmpty_iff.mpr hperm.eq_nil)
      have hser : sortedRewards (extractRewards r₁) = sortedRewards (extractRewards r₂) := by
        apply sorted_perm_eq_of_nodup_keys
        · exact ((List.perm_insertionSort _ _).trans ((hperm.map _).trans
            (List.perm_insertionSort _ _).symm))
        · exact List.sorted_insertionSort _ _
        · exact List.sorted_insertionSort _ _
        · have hp := (List.perm_insertionSort (fun a b : String × String => strLE a.1 b.1 = true)
            (extractRewards r₁)).map Prod.fst
          refine hp.nodup_iff.mpr ?_
          rw [extractRewards_keys]
          exact hnd
      unfold generate_checkin_hash
      rw [if_neg hemp, if_neg h2]
      unfold serializeRewards
      rw [hser]
  · intro r₃ hemp hser
    unfold generate_checkin_hash serializeRewards
    rw [hemp, hser]
  · intro hlen hne
    unfold generate_checkin_hash
    rw [hne]
    simp only [Bool.false_eq_true, if_false]
    show (String.mk ((sha256hex (serializeRewards (extractRewards r₁))).toList.take 16)).length = 16
    have h64 := hlen (serializeRewards (extractRewards r₁))
    have hdata : (sha256hex (serializeRewards (extractRewards r₁))).toList.length = 64 := h64
    show ((sha256hex (serializeRewards (extractRewards r₁))).toList.take 16).length = 16
    rw [List.length_take, hdata]
    omega

/-- Witness for C8: two concrete two-account maps that are permutations of
each other digest identically, for a concrete hash function. -/
theorem generate_checkin_hash_digest_witness :
    generate_checkin_hash (fun _ => "0123456789abcdef0123456789abcdef")
        [("account_2", .signed "3" "1" "1" "" ""), ("account_1", .alreadySigned "5" "")]
      = generate_checkin_hash (fun _ => "0123456789abcdef0123456789abcdef")
        [("account_1", .alreadySigned "5" ""), ("account_2", .signed "3" "1" "1" "" "")] :=
  (generate_checkin_hash_digest (fun _ => "0123456789abcdef0123456789abcdef")
    [("account_2", .signed "3" "1" "1" "" ""), ("account_1", .alreadySigned "5" "")]
    [("account_1", .alreadySigned "5" ""), ("account_2", .signed "3" "1" "1" "" "")]
    (by decide) (List.Perm.swap _ _ _)).1

def isSuccessReport : AccountReport → Bool
  | .success _ _ => true
  | .failure _ _ => false

def isFailureReport : AccountReport → Bool
  | .success _ _ => false
  | .failure _ _ => true

/-- C9: for every ordered outcome sequence, each account contributes exactly
one report — a `(False, …)` return or a raised exception is captured as that
account's failure report and the loop continues with the next account — and
the reported success count equals the number of non-failure reports (equally,
the number of success reports). -/
theorem mainLoop_isolates_failures (outs : List AccountOutcome) : ∀ (i : Nat),
    (mainLoop i outs).1.length = outs.length ∧
    (mainLoop i outs).2.2 = ((mainLoop i outs).1.filter
      (fun r => !isFailureReport r)).length ∧
    (mainLoop i outs).2.2 = (mainLoop i outs).1.countP isSuccessReport := by
  induction outs with
  | nil => intro i; exact ⟨rfl, rfl, rfl⟩
  | cons o rest ih =>
    intro i
    obtain ⟨ihlen, ihfil, ihcnt⟩ := ih (i + 1)
    match o with
    | .ret true res =>
      refine ⟨?_, ?_, ?_⟩
      · show (mainLoop (i + 1) rest).1.length + 1 = rest.length + 1
        rw [ihlen]
      · show (mainLoop (i + 1) rest).2.2 + 1 =
          (AccountReport.success (accountName i) res ::
            (mainLoop (i + 1) rest).1.filter (fun r => !isFailureReport r)).length
        rw [List.length_cons, ihfil]
      · show (mainLoop (i + 1) rest).2.2 + 1 =
          List.countP isSuccessReport
            (AccountReport.success (accountName i) res :: (mainLoop (i + 1) rest).1)
        rw [List.countP_cons]
        show (mainLoop (i + 1) rest).2.2 + 1 =
          List.countP isSuccessReport (mainLoop (i + 1) rest).1 + 1
        rw [ihcnt]
    | .ret false res =>
      refine ⟨?_, ?_, ?_⟩
      · show (mainLoop (i + 1) rest).1.length + 1 = rest.length + 1
        rw [ihlen]
      · exact ihfil
      · show (mainLoop (i + 1) rest).2.2 =
          List.countP isSuccessReport
            (AccountReport.failure (accountName i) (errMsg res) :: (mainLoop (i + 1) rest).1)
        rw [List.countP_cons]
        show (mainLoop (i + 1) rest).2.2 =
          List.countP isSuccessReport (mainLoop (i + 1) rest).1 + 0
        rw [Nat.add_zero]
        exact ihcnt
    | .exn m =>
      refine ⟨?_, ?_, ?_⟩
      · show (mainLoop (i + 1) rest).1.length + 1 = rest.length + 1
        rw [ihlen]
      · exact ihfil
      · show (mainLoop (i + 1) rest).2.2 =
          List.countP isSuccessReport
            (AccountReport.failure (accountName i) m :: (mainLoop (i + 1) rest).1)
        rw [List.countP_cons]
        show (mainLoop (i + 1) rest).2.2 =
          List.countP isSuccessReport (mainLoop (i + 1) rest).1 + 0
        rw [Nat.add_zero]
        exact ihcnt

theorem mainLoop_info_len (outs : List AccountOutcome) : ∀ (i : Nat),
    (mainLoop i outs).2.1.length = (mainLoop i outs).2.2 := by
  induction outs with
  | nil => intro i; rfl
  | cons o rest ih =>
    intro i
    match o with
    | .ret true res =>
      show (mainLoop (i + 1) rest).2.1.length + 1 = (mainLoop (i + 1) rest).2.2 + 1
      rw [ih (i + 1)]
    | .ret false res => exact ih (i + 1)
    | .exn m => exact ih (i + 1)

/-- C10: in a run where no account succeeds, `current_info` stays empty, the
digest of the empty results map is the empty string (`if not results: return
""`), and the `if current_hash:` guard skips the file write — so the stored
digest is left unchanged; conversely the guard passes (a write happens) only
when at least one account succeeded. -/
theorem digest_write_gate (sha256hex : String → String) (outs : List AccountOutcome)
    (prev : Option String) :
    ((mainLoop 0 outs).2.2 = 0 →
      (mainLoop 0 outs).2.1 = [] ∧
      generate_checkin_hash sha256hex (mainLoop 0 outs).2.1 = "" ∧
      persistedAfterRun sha256hex (mainLoop 0 outs).2.1 prev = prev) ∧
    (generate_checkin_hash sha256hex (mainLoop 0 outs).2.1 ≠ "" →
      1 ≤ (mainLoop 0 outs).2.2) := by
  have hlen := mainLoop_info_len outs 0
  constructor
  · intro hcnt
    have hnil : (mainLoop 0 outs).2.1 = [] := by
      rw [hcnt] at hlen
      exact List.length_eq_zero.mp hlen
    refine ⟨hnil, ?_, ?_⟩
    · rw [hnil]
      rfl
    · rw [hnil]
      rfl
  · intro hne
    rcases Nat.eq_zero_or_pos (mainLoop 0 outs).2.2 with h0 | h1
    · exfalso
      have hnil : (mainLoop 0 outs).2.1 = [] := by
        rw [h0] at hlen
        exact List.length_eq_zero.mp hlen
      rw [hnil] at hne
      exact hne rfl
    · exact h1

/-- Witness for C10: a single-account all-failure run leaves a previously
stored digest untouched. -/
theorem digest_write_gate_witness :
    (mainLoop 0 [AccountOutcome.ret false (.error "boom")]).2.2 = 0 ∧
    persistedAfterRun (fun _ => "0123456789abcdef")
      (mainLoop 0 [AccountOutcome.ret false (.error "boom")]).2.1
      (some "cafe") = some "cafe" :=
  ⟨rfl,
   ((digest_write_gate (fun _ => "0123456789abcdef")
      [AccountOutcome.ret false (.error "boom")] (some "cafe")).1 rfl).2.2⟩
